import Mathlib

/-!
Shallow embedding of the `cw.api.core.events` event bus
(`src/eventBus.ts`, `src/eventInvocationContext.ts`, `src/coreEvents.ts`,
`src/types.ts`) together with theorems settling the specification claims.

JavaScript runtime values are modelled by the inductive `JSVal`; machine
object identity is modelled by a numeric `id` field (two distinct object
literals receive distinct ids, so structural equality of the Lean values
plays the role of JavaScript reference equality `===`).  Handlers are
modelled as Lean functions from the invocation context to a new context
plus a return-or-throw outcome; they interact with the bus only through
the context, mirroring the subscriber contract.  The async execution path
(`runAsync`) is left unmodelled (`Outcome.asyncUnmodeled`): every claim
under study is about the synchronous path.  Nested lifecycle triggering
(`triggerInternal`) recurses through `trigger`; the embedding makes that
recursion total with an explicit fuel parameter, `Outcome.fuelOut`
standing for a non-terminating run of the original code.
-/

/-- Model of a JavaScript runtime value, with just enough structure for the
dispatch engine: `undefined` is `undefined`, `promise` is a thenable object
(`isPromiseLike` holds), `obj` is a plain non-thenable object, and
`typeError` is a `TypeError` instance (non-thenable, always truthy). -/
inductive JSVal where
  | undefined
  | null
  | bool (b : Bool)
  | num (n : Int)
  | str (s : String)
  | obj (oid : Nat)
  | promise (oid : Nat)
  | typeError (msg : String)
deriving DecidableEq

/-- JavaScript truthiness of a value. -/
def truthy : JSVal → Bool
  | .undefined => false
  | .null => false
  | .bool b => b
  | .num n => n != 0
  | .str s => s != ""
  | .obj _ => true
  | .promise _ => true
  | .typeError _ => true

/-- `isPromiseLike` from `eventBus.ts`: the value is a non-null object with a
callable `then` property.  Only `promise` values qualify: `null` is excluded
explicitly by the source, plain objects and `TypeError`s have no `then`. -/
def isPromiseLike : JSVal → Bool
  | .promise _ => true
  | _ => false

/-- The fixed stop reason `STOPPED_BY_ERROR` from `eventBus.ts`. -/
def stoppedByError : String := "Subscriber threw an error"

/-- Message of the `TypeError` raised by `runSync` when a subscriber of a
synchronous event returns a promise. -/
def typeErrMsg (name : String) : String :=
  "Event \"" ++ name ++ "\" is synchronous but a subscriber returned a promise."

/-- Execution mode of an event definition (`EventMode` in `types.ts`). -/
inductive EventMode where
  | sync
  | async
deriving DecidableEq

/-- Printable form of a mode, used in the registration conflict message. -/
def modeStr : EventMode → String
  | .sync => "sync"
  | .async => "async"

/-- `EventDefinition` from `types.ts`.  `createInitialResult` models the
optional zero-argument factory by the value it produces; `id` models the
object identity of the descriptor literal (reference equality).  The
`description` and `metadata` documentation fields play no role in the
engine and are omitted. -/
structure EventDef where
  name : String
  mode : EventMode
  internal : Bool := false
  createInitialResult : Option JSVal := none
  id : Nat := 0
deriving DecidableEq

/-- `EventTriggerOptions` from `types.ts`.  `initialResult = some v` models
an options object on which the `initialResult` key is present with value
`v` (which may itself be `undefined`); `none` models an absent key, matching
the `hasOwnProperty` check in `resolveInitialResult`. -/
structure TriggerOptions where
  initialResult : Option JSVal := none
  throwOnError : Bool := false
  metadata : Option JSVal := none
deriving DecidableEq

/-- `options?.throwOnError` for a possibly-absent options argument. -/
def throwOn : Option TriggerOptions → Bool
  | some t => t.throwOnError
  | none => false

/-- `options?.metadata` for a possibly-absent options argument. -/
def optMeta : Option TriggerOptions → Option JSVal
  | some t => t.metadata
  | none => none

/-- `EventInvocationContext` from `eventInvocationContext.ts`: the mutable
per-trigger carrier.  `error = JSVal.undefined` models the unassigned `_error`
field (indistinguishable, through the public getter, from an assigned
`undefined`). -/
structure Ctx where
  event : EventDef
  payload : JSVal
  result : JSVal
  metadata : Option JSVal
  stopped : Bool
  stoppedReason : Option String
  stoppedForError : Bool
  error : JSVal
  hasSubscribers : Bool
deriving DecidableEq

/-- The `EventInvocationContext` constructor: all stop/error state starts
cleared, `result` starts at the initial result. -/
def Ctx.mk0 (d : EventDef) (payload : JSVal) (initialResult : JSVal)
    (metadata : Option JSVal) (hasSubscribers : Bool) : Ctx :=
  { event := d
    payload := payload
    result := initialResult
    metadata := metadata
    stopped := false
    stoppedReason := none
    stoppedForError := false
    error := .undefined
    hasSubscribers := hasSubscribers }

/-- `setResult(value)`: overwrite the result slot. -/
def Ctx.setResult (c : Ctx) (v : JSVal) : Ctx := { c with result := v }

/-- `stop(reason?)`: sets `_stopped = true` and assigns `_stoppedReason =
reason` unconditionally (the source has no guard on a previous reason). -/
def Ctx.stop (c : Ctx) (reason : Option String) : Ctx :=
  { c with stopped := true, stoppedReason := reason }

/-- `stopForError(error, reason?)`: records the error, marks
`stoppedForError`, then performs `stop(reason)`. -/
def Ctx.stopForError (c : Ctx) (e : JSVal) (reason : Option String) : Ctx :=
  ({ c with stoppedForError := true, error := e }).stop reason

/-- One public mutation of the invocation context, for stating invariants
over arbitrary operation sequences. -/
inductive CtxOp where
  | setResult (v : JSVal)
  | stop (reason : Option String)
  | stopForError (e : JSVal) (reason : Option String)
deriving DecidableEq

/-- Apply one context operation. -/
def applyOp (c : Ctx) : CtxOp → Ctx
  | .setResult v => c.setResult v
  | .stop r => c.stop r
  | .stopForError e r => c.stopForError e r

/-- Apply a sequence of context operations left to right. -/
def applyOps (c : Ctx) (ops : List CtxOp) : Ctx := ops.foldl applyOp c

/-- Outcome of invoking a subscriber with the context: the handler either
returns a value or throws one.  The first component of `Handler.run` is the
context after whatever mutations the handler performed on it. -/
inductive HRes where
  | ret (v : JSVal)
  | thr (e : JSVal)

/-- A subscriber function.  `hid` models the function object's identity
(the key used by the `Set` of subscribers and reported in traces). -/
structure Handler where
  hid : Nat
  run : Ctx → Ctx × HRes

/-- A registry entry (`EventRecord` in `eventBus.ts`): the stored
definition paired with the ordered, duplicate-free subscriber list (the
insertion order of the JavaScript `Set`). -/
structure EventRecord where
  definition : EventDef
  subscribers : List Handler

/-- The event bus state: the `events` map, modelled as an association list
in insertion order (a JavaScript `Map` preserves insertion order). -/
structure Bus where
  events : List (String × EventRecord)

/-- `Map.get`: first (and only) entry with the given key. -/
def lookupRec : List (String × EventRecord) → String → Option EventRecord
  | [], _ => none
  | (k, r) :: rest, nm => if k = nm then some r else lookupRec rest nm

/-- `Map.set`: replace in place if the key exists, append otherwise. -/
def setRec : List (String × EventRecord) → String → EventRecord →
    List (String × EventRecord)
  | [], nm, r => [(nm, r)]
  | (k, r') :: rest, nm, r =>
    if k = nm then (k, r) :: rest else (k, r') :: setRec rest nm r

/-- `registerEvent` from `eventBus.ts`.  Throwing is modelled with
`Except`: the error case is the mode-conflict `Error`. -/
def registerEvent (bus : Bus) (d : EventDef) : Except String (Bus × EventDef) :=
  match lookupRec bus.events d.name with
  | some existing =>
    if existing.definition ≠ d then
      if existing.definition.mode ≠ d.mode then
        .error ("Event \"" ++ d.name ++ "\" already registered with mode \"" ++
          modeStr existing.definition.mode ++ "\".")
      else
        .ok (bus, existing.definition)
    else
      .ok (bus, d)
  | none =>
    .ok (⟨setRec bus.events d.name ⟨d, []⟩⟩, d)

/-- `registerEvent` keeping only the bus, swallowing the (never hit on the
paths below) conflict error; used to build the initial bus. -/
def registerEventD (bus : Bus) (d : EventDef) : Bus :=
  match registerEvent bus d with
  | .ok (bus', _) => bus'
  | .error _ => bus

/-- `hasEvent` (string form). -/
def hasEvent (bus : Bus) (nm : String) : Bool := (lookupRec bus.events nm).isSome

/-- `getEvent`. -/
def getEvent (bus : Bus) (nm : String) : Option EventDef :=
  (lookupRec bus.events nm).map (·.definition)

/-- `ensureRecord`: return the record stored under the name, registering
the definition first when the name is unseen.  On the absent path
`registerEvent` cannot fail and the immediate re-lookup cannot miss; the
two unreachable fallbacks mirror the defensive `throw` of the source. -/
def ensureRecord (bus : Bus) (d : EventDef) : Bus × EventRecord :=
  match lookupRec bus.events d.name with
  | some r => (bus, r)
  | none =>
    match registerEvent bus d with
    | .error _ => (bus, ⟨d, []⟩)
    | .ok (bus', _) =>
      match lookupRec bus'.events d.name with
      | some r => (bus', r)
      | none => (bus', ⟨d, []⟩)

/-- `CORE_EVENTS.beforeTrigger` from `coreEvents.ts`. -/
def coreBeforeTrigger : EventDef :=
  { name := "cw.events.core.beforeTrigger", mode := .sync, internal := true, id := 1001 }

/-- `CORE_EVENTS.afterTrigger`. -/
def coreAfterTrigger : EventDef :=
  { name := "cw.events.core.afterTrigger", mode := .sync, internal := true, id := 1002 }

/-- `CORE_EVENTS.subscriberError`. -/
def coreSubscriberError : EventDef :=
  { name := "cw.events.core.subscriberError", mode := .sync, internal := true, id := 1003 }

/-- `CORE_EVENTS.subscriberRegistered`. -/
def coreSubscriberRegistered : EventDef :=
  { name := "cw.events.core.subscriberRegistered", mode := .sync, internal := true, id := 1004 }

/-- `CORE_EVENTS.subscriberRemoved`. -/
def coreSubscriberRemoved : EventDef :=
  { name := "cw.events.core.subscriberRemoved", mode := .sync, internal := true, id := 1005 }

/-- The five core definitions in `Object.values(CORE_EVENTS)` order. -/
def coreDefs : List EventDef :=
  [coreBeforeTrigger, coreAfterTrigger, coreSubscriberError,
   coreSubscriberRegistered, coreSubscriberRemoved]

/-- The `EventBus` constructor: pre-register the core events when
`includeCoreEvents` (default `true`). -/
def mkBus (includeCoreEvents : Bool) : Bus :=
  if includeCoreEvents then coreDefs.foldl registerEventD ⟨[]⟩ else ⟨[]⟩

/-- The options object `{ throwOnError: false }` that `triggerInternal`
passes to the nested `trigger` call. -/
def internalOpts : TriggerOptions :=
  { initialResult := none, throwOnError := false, metadata := none }

/-- `resolveInitialResult` from `eventBus.ts`: explicit `initialResult`
option (checked by key presence) wins; otherwise a present
`createInitialResult` factory is invoked; otherwise `undefined`. -/
def resolveInitialResult (d : EventDef) (opts : Option TriggerOptions) : JSVal :=
  match opts with
  | some o =>
    match o.initialResult with
    | some v => v
    | none =>
      match d.createInitialResult with
      | some v => v
      | none => .undefined
  | none =>
    match d.createInitialResult with
    | some v => v
    | none => .undefined

/-- One observable step of a trigger run: a lifecycle notification being
emitted (`triggerInternal` of the named core event) or a subscriber being
invoked. -/
inductive TraceEv where
  | lifecycle (name : String)
  | invoked (hid : Nat)
deriving DecidableEq

/-- How a trigger call ends: returning the context, throwing the captured
error (`throwOnError` path), an unmodelled async-mode run, or running out
of fuel (standing for a diverging run of the original code). -/
inductive Outcome where
  | ret (c : Ctx)
  | threw (e : JSVal)
  | asyncUnmodeled
  | fuelOut
deriving DecidableEq

/-- Result of a (synchronous-path) trigger call: the bus afterwards, the
ordered trace of observable steps, and the outcome. -/
structure TriggerResult where
  bus : Bus
  trace : List TraceEv
  outcome : Outcome

/-- `handleSubscriberError`: skip entirely for internal definitions,
otherwise notify the `subscriberError` core event through the nested
trigger path (`nested`).  The payload object `{event, error, context}` is
opaque to the engine and modelled by a fixed object value.  The boolean is
false when the nested notification ran out of fuel. -/
def handleSubscriberError (nested : Bus → EventDef → JSVal → TriggerResult)
    (rcd : EventRecord) (bus : Bus) : Bus × List TraceEv × Bool :=
  if rcd.definition.internal then (bus, [], true)
  else
    let r := nested bus coreSubscriberError (.obj 0)
    match r.outcome with
    | .fuelOut => (r.bus, .lifecycle coreSubscriberError.name :: r.trace, false)
    | _ => (r.bus, .lifecycle coreSubscriberError.name :: r.trace, true)

/-- The loop of `runSync`: iterate the subscribers in order, breaking when
the context is stopped; a returned promise raises a `TypeError` inside the
`try`, so it is captured by the same `catch` as a subscriber throw:
`stopForError(error, STOPPED_BY_ERROR)`, `handleSubscriberError`, break.
A returned defined value is assigned with `setResult`.  The boolean is
false when a nested lifecycle notification ran out of fuel. -/
def runSyncGo (nested : Bus → EventDef → JSVal → TriggerResult)
    (rcd : EventRecord) : List Handler → Bus → Ctx → Bus × Ctx × List TraceEv × Bool
  | [], bus, ctx => (bus, ctx, [], true)
  | h :: rest, bus, ctx =>
    if ctx.stopped then (bus, ctx, [], true)
    else
      match h.run ctx with
      | (c1, .thr e) =>
        let c2 := c1.stopForError e (some stoppedByError)
        match handleSubscriberError nested rcd bus with
        | (busE, trE, okE) => (busE, c2, .invoked h.hid :: trE, okE)
      | (c1, .ret v) =>
        if isPromiseLike v then
          let c2 := c1.stopForError (.typeError (typeErrMsg rcd.definition.name))
            (some stoppedByError)
          match handleSubscriberError nested rcd bus with
          | (busE, trE, okE) => (busE, c2, .invoked h.hid :: trE, okE)
        else
          let c2 := if v = JSVal.undefined then c1 else c1.setResult v
          match runSyncGo nested rcd rest bus c2 with
          | (b2, c3, tr, ok) => (b2, c3, .invoked h.hid :: tr, ok)

/-- A `void this.triggerInternal(coreEvent, payload)` call site: run the
nested trigger, record the lifecycle marker followed by the nested trace,
and report whether the nested run completed within fuel. -/
def notifyInternal (nested : Bus → EventDef → JSVal → TriggerResult)
    (bus : Bus) (cd : EventDef) (p : JSVal) : Bus × List TraceEv × Bool :=
  let r := nested bus cd p
  match r.outcome with
  | .fuelOut => (r.bus, .lifecycle cd.name :: r.trace, false)
  | _ => (r.bus, .lifecycle cd.name :: r.trace, true)

/-- One level of `trigger` from `eventBus.ts`, synchronous path, with the
nested lifecycle trigger (`triggerInternal` reentering `trigger`) supplied
as `nested`.  Steps mirror the source: `ensureRecord`,
`resolveInitialResult` on the stored definition, fresh context with the
subscriber-count snapshot, `skipLifecycle` from the stored definition's
`internal` flag, before-trigger notification, `runSync`, after-trigger
notification, then the `throwOnError && stoppedForError && error` rethrow
check. -/
def triggerStep (nested : Bus → EventDef → JSVal → TriggerResult)
    (bus : Bus) (d : EventDef) (p : JSVal) (opts : Option TriggerOptions) :
    TriggerResult :=
  match ensureRecord bus d with
  | (bus1, rcd) =>
    let ctx0 := Ctx.mk0 rcd.definition p (resolveInitialResult rcd.definition opts)
      (optMeta opts) (decide (0 < rcd.subscribers.length))
    if rcd.definition.internal then
      match rcd.definition.mode with
      | .async => ⟨bus1, [], .asyncUnmodeled⟩
      | .sync =>
        match runSyncGo nested rcd rcd.subscribers bus1 ctx0 with
        | (bus2, c2, tr2, ok) =>
          if ok = false then ⟨bus2, tr2, .fuelOut⟩
          else if throwOn opts && c2.stoppedForError && truthy c2.error then
            ⟨bus2, tr2, .threw c2.error⟩
          else ⟨bus2, tr2, .ret c2⟩
    else
      match notifyInternal nested bus1 coreBeforeTrigger (.obj 0) with
      | (bus2, tr1, false) => ⟨bus2, tr1, .fuelOut⟩
      | (bus2, tr1, true) =>
        match rcd.definition.mode with
        | .async => ⟨bus2, tr1, .asyncUnmodeled⟩
        | .sync =>
          match runSyncGo nested rcd rcd.subscribers bus2 ctx0 with
          | (bus3, c2, tr2, ok) =>
            if ok = false then ⟨bus3, tr1 ++ tr2, .fuelOut⟩
            else
              match notifyInternal nested bus3 coreAfterTrigger (.obj 0) with
              | (bus4, tr3, false) => ⟨bus4, tr1 ++ tr2 ++ tr3, .fuelOut⟩
              | (bus4, tr3, true) =>
                if throwOn opts && c2.stoppedForError && truthy c2.error then
                  ⟨bus4, tr1 ++ tr2 ++ tr3, .threw c2.error⟩
                else ⟨bus4, tr1 ++ tr2 ++ tr3, .ret c2⟩

/-- `trigger`, made total with an explicit fuel bound on the depth of
nested lifecycle triggering: each nested `triggerInternal` call runs with
one unit less fuel and always passes `{ throwOnError: false }`. -/
def triggerFuel : Nat → Bus → EventDef → JSVal → Option TriggerOptions → TriggerResult
  | 0, bus, _, _, _ => ⟨bus, [], .fuelOut⟩
  | Nat.succ n, bus, d, p, opts =>
    triggerStep (fun b cd pl => triggerFuel n b cd pl (some internalOpts)) bus d p opts

/-- The subscriber ids invoked during a trace, in order. -/
def invokedIds (tr : List TraceEv) : List Nat :=
  tr.filterMap fun
    | .invoked i => some i
    | .lifecycle _ => none

/-- The lifecycle notifications emitted during a trace, in order. -/
def lifecycleNames (tr : List TraceEv) : List String :=
  tr.filterMap fun
    | .lifecycle nm => some nm
    | .invoked _ => none

/-- The result value after a chain of returned values folds over an
initial result: a defined (non-`undefined`) return overwrites, an
`undefined` return leaves the result unchanged. -/
def lastAssigned (init : JSVal) (vs : List JSVal) : JSVal :=
  vs.foldl (fun r v => if v = JSVal.undefined then r else v) init

/-- Bus-free restatement of the `runSync` loop, used to describe the
context evolution in proofs: returns the final context, the invoked
subscriber ids in order, and whether the error-capture path fired. -/
def chainRun (nm : String) : List Handler → Ctx → Ctx × List Nat × Bool
  | [], c => (c, [], false)
  | h :: rest, c =>
    if c.stopped then (c, [], false)
    else
      match h.run c with
      | (c1, .thr e) =>
        (c1.stopForError e (some stoppedByError), [h.hid], true)
      | (c1, .ret v) =>
        if isPromiseLike v then
          (c1.stopForError (.typeError (typeErrMsg nm)) (some stoppedByError),
           [h.hid], true)
        else
          let c2 := if v = JSVal.undefined then c1 else c1.setResult v
          match chainRun nm rest c2 with
          | (c3, ids, err) => (c3, h.hid :: ids, err)

/-- A handler that leaves the context untouched and returns the fixed
value `v` — the shape of a subscriber that neither stops nor errors and
communicates only through its return value. -/
def ConstRet (h : Handler) (v : JSVal) : Prop :=
  ∀ c, h.run c = (c, .ret v)

/-- A handler that throws the value `e` (after arbitrary context
mutations). -/
def ThrowsAny (h : Handler) (e : JSVal) : Prop :=
  ∀ c, (h.run c).2 = HRes.thr e

/-- The three core event names a `trigger` call can notify. -/
def coreNames : List String :=
  [coreBeforeTrigger.name, coreAfterTrigger.name, coreSubscriberError.name]

/-- Every core name that is registered is stored as an internal record
with no subscribers — true of a default-constructed bus, and the condition
under which lifecycle notifications are silent and terminating. -/
def coreQuietB (bus : Bus) : Bool :=
  coreNames.all fun nm =>
    match lookupRec bus.events nm with
    | none => true
    | some r => r.definition.internal && r.subscribers.isEmpty

/-- All three core names that `trigger` can notify are registered. -/
def coreRegistered (bus : Bus) : Bool :=
  coreNames.all fun nm => (lookupRec bus.events nm).isSome

/-- Every `stopForError` operation in the sequence carries a defined
(non-`undefined`) error value. -/
def definedErrors (ops : List CtxOp) : Bool :=
  ops.all fun
    | .stopForError e _ => decide (e ≠ JSVal.undefined)
    | _ => true

/-- The record that `trigger` would resolve for the definition is flagged
internal: either the name is stored with an internal record, or the name
is unseen and the definition itself (which then gets stored) is internal. -/
def storedInternal (bus : Bus) (d : EventDef) : Prop :=
  match lookupRec bus.events d.name with
  | some r => r.definition.internal = true
  | none => d.internal = true

/-- A sample non-internal synchronous definition used by concrete
counterexamples and witnesses. -/
def sampleDef : EventDef := { name := "x", mode := .sync, id := 50 }

/-- A sample synchronous definition with an initial-result factory. -/
def sampleDefFac : EventDef :=
  { name := "f", mode := .sync, createInitialResult := some (.num 5), id := 51 }

/-- An internal-flagged definition sharing `sampleDef`'s name but with a
distinct object identity. -/
def sampleDefInternal : EventDef := { name := "x", mode := .sync, internal := true, id := 61 }

/-- An async definition sharing `sampleDef`'s name, distinct identity. -/
def sampleDefAsync : EventDef := { name := "x", mode := .async, id := 52 }

/-- A distinct descriptor object with `sampleDef`'s name and mode. -/
def sampleDefCopy : EventDef := { name := "x", mode := .sync, id := 53 }

/-- A handler that throws the falsy value `false`. -/
def throwFalseHandler : Handler := ⟨7, fun c => (c, .thr (.bool false))⟩

/-- A handler that throws a (truthy) error object. -/
def throwObjHandler : Handler := ⟨8, fun c => (c, .thr (.obj 9))⟩

/-- A handler that returns the number 5. -/
def retFiveHandler : Handler := ⟨1, fun c => (c, .ret (.num 5))⟩

/-- A handler that returns `undefined`. -/
def retUndefHandler : Handler := ⟨2, fun c => (c, .ret .undefined)⟩

/-- A handler that returns a promise-like value. -/
def retPromiseHandler : Handler := ⟨3, fun c => (c, .ret (.promise 4))⟩

/-- A handler that calls `stop('done')` and returns `undefined`. -/
def stopDoneHandler : Handler := ⟨5, fun c => (c.stop (some "done"), .ret .undefined)⟩

/-- The default-constructed bus with the core events pre-registered. -/
def defaultBus : Bus := mkBus true

/-- The default bus with `sampleDef` registered and the given subscribers. -/
def busWith (subs : List Handler) : Bus :=
  ⟨defaultBus.events ++ [("x", ⟨sampleDef, subs⟩)]⟩

/-- A bus built without core events, holding only `sampleDef` with no
subscribers (the `includeCoreEvents: false` configuration). -/
def busNoCore : Bus := ⟨[("x", ⟨sampleDef, []⟩)]⟩

/-- Registry monotonicity: every record stored in `b` is still stored,
unchanged, in `b'`.  `trigger` only ever adds registry entries. -/
def busLe (b b' : Bus) : Prop :=
  ∀ nm r, lookupRec b.events nm = some r → lookupRec b'.events nm = some r

/-- The trace shape of one synchronous trigger level over a quiet bus:
before-trigger marker (unless internal), the invoked subscriber ids, a
subscriber-error marker when the capture path fired (unless internal), and
the after-trigger marker (unless internal). -/
def mainTrace (intl : Bool) (ids : List Nat) (err : Bool) : List TraceEv :=
  (if intl then [] else [.lifecycle coreBeforeTrigger.name]) ++
    ids.map TraceEv.invoked ++
    (if err && !intl then [.lifecycle coreSubscriberError.name] else []) ++
    (if intl then [] else [.lifecycle coreAfterTrigger.name])

/-! ### Registry infrastructure -/

theorem lookup_setRec_self (es : List (String × EventRecord)) (nm : String)
    (r : EventRecord) : lookupRec (setRec es nm r) nm = some r := by
  induction es with
  | nil => simp [setRec, lookupRec]
  | cons hd tl ih =>
    obtain ⟨k, r'⟩ := hd
    by_cases hk : k = nm
    · subst hk
      simp [setRec, lookupRec]
    · simp [setRec, lookupRec, hk, ih]

theorem lookup_setRec_other (es : List (String × EventRecord)) (nm nm' : String)
    (r : EventRecord) (h : nm' ≠ nm) :
    lookupRec (setRec es nm r) nm' = lookupRec es nm' := by
  induction es with
  | nil => simp [setRec, lookupRec, Ne.symm h]
  | cons hd tl ih =>
    obtain ⟨k, r'⟩ := hd
    by_cases hk : k = nm
    · subst hk
      simp [setRec, lookupRec, Ne.symm h]
    · simp [setRec, lookupRec, hk, ih]

theorem ensureRecord_present (bus : Bus) (d : EventDef) (r : EventRecord)
    (h : lookupRec bus.events d.name = some r) : ensureRecord bus d = (bus, r) := by
  simp [ensureRecord, h]

theorem ensureRecord_absent (bus : Bus) (d : EventDef)
    (h : lookupRec bus.events d.name = none) :
    ensureRecord bus d = (⟨setRec bus.events d.name ⟨d, []⟩⟩, ⟨d, []⟩) := by
  simp [ensureRecord, h, registerEvent, lookup_setRec_self]

theorem coreQuiet_lookup (bus : Bus) (hq : coreQuietB bus = true) (nm : String)
    (hnm : nm ∈ coreNames) (r : EventRecord)
    (h : lookupRec bus.events nm = some r) :
    r.definition.internal = true ∧ r.subscribers = [] := by
  have hx := (List.all_eq_true.mp hq) nm hnm
  rw [h] at hx
  simp only [Bool.and_eq_true] at hx
  exact ⟨hx.1, List.isEmpty_iff.mp hx.2⟩

theorem coreQuiet_insert (bus : Bus) (cd : EventDef) (hq : coreQuietB bus = true)
    (hint : cd.internal = true) :
    coreQuietB ⟨setRec bus.events cd.name ⟨cd, []⟩⟩ = true := by
  refine List.all_eq_true.mpr ?_
  intro nm hnm
  by_cases hcase : nm = cd.name
  · subst hcase
    simp [lookup_setRec_self, hint]
  · rw [lookup_setRec_other _ _ _ _ hcase]
    exact List.all_eq_true.mp hq nm hnm

/-! ### chainRun computation lemmas -/

theorem chainRun_nil (nm : String) (c : Ctx) : chainRun nm [] c = (c, [], false) := rfl

theorem chainRun_stopped (nm : String) (subs : List Handler) (c : Ctx)
    (h : c.stopped = true) : chainRun nm subs c = (c, [], false) := by
  cases subs with
  | nil => rfl
  | cons hd tl => simp [chainRun, h]

theorem setResult_stopped (c : Ctx) (v : JSVal) : (c.setResult v).stopped = c.stopped := rfl

theorem chainRun_clean_front (nm : String) (pre : List Handler) (vs : List JSVal)
    (rest : List Handler) (c : Ctx)
    (hf : List.Forall₂ ConstRet pre vs) (hp : ∀ v ∈ vs, isPromiseLike v = false)
    (hs : c.stopped = false) :
    chainRun nm (pre ++ rest) c =
      ((chainRun nm rest { c with result := lastAssigned c.result vs }).1,
       pre.map (·.hid) ++
         (chainRun nm rest { c with result := lastAssigned c.result vs }).2.1,
       (chainRun nm rest { c with result := lastAssigned c.result vs }).2.2) := by
  induction hf generalizing c with
  | nil => simp [lastAssigned]
  | @cons h v pre' vs' hchr htl ih =>
    have hv : isPromiseLike v = false := hp v (by simp)
    have hvs' : ∀ w ∈ vs', isPromiseLike w = false := fun w hw => hp w (by simp [hw])
    have hla : lastAssigned c.result (v :: vs') =
        lastAssigned (if v = JSVal.undefined then c.result else v) vs' := by
      by_cases hu : v = JSVal.undefined <;> simp [lastAssigned, hu]
    by_cases hu : v = JSVal.undefined
    · subst hu
      have := ih (c := c) hvs' hs
      simp [chainRun, hs, hchr c, hv, this, hla]
    · have hstop2 : (c.setResult v).stopped = false := by simp [Ctx.setResult, hs]
      have := ih (c := c.setResult v) hvs' hstop2
      have hrw : ({ c.setResult v with result := lastAssigned (c.setResult v).result vs' } : Ctx) =
          { c with result := lastAssigned c.result (v :: vs') } := by
        simp [Ctx.setResult, hla, hu]
      rw [hrw] at this
      simp [chainRun, hs, hchr c, hv, hu, this]

theorem chainRun_throw (nm : String) (h : Handler) (e : JSVal) (rest : List Handler)
    (c : Ctx) (hthr : ThrowsAny h e) (hs : c.stopped = false) :
    chainRun nm (h :: rest) c =
      ((h.run c).1.stopForError e (some stoppedByError), [h.hid], true) := by
  have h2 := hthr c
  rcases hrc : h.run c with ⟨c1, r⟩
  rw [hrc] at h2
  simp only at h2
  subst h2
  simp [chainRun, hs, hrc]

theorem chainRun_promise (nm : String) (h : Handler) (v : JSVal) (rest : List Handler)
    (c : Ctx) (hcr : ConstRet h v) (hpl : isPromiseLike v = true) (hs : c.stopped = false) :
    chainRun nm (h :: rest) c =
      (c.stopForError (.typeError (typeErrMsg nm)) (some stoppedByError), [h.hid], true) := by
  simp [chainRun, hs, hcr c, hpl]

theorem chainRun_stopper (nm : String) (h : Handler) (r0 : Option String)
    (rest : List Handler) (c : Ctx)
    (hstop : ∀ c', h.run c' = (c'.stop r0, .ret .undefined)) (hs : c.stopped = false) :
    chainRun nm (h :: rest) c = (c.stop r0, [h.hid], false) := by
  have hstopped : (c.stop r0).stopped = true := rfl
  simp [chainRun, hs, hstop c, isPromiseLike, chainRun_stopped nm rest _ hstopped]

/-! ### runSync reduction lemmas -/

theorem runSyncGo_internal (nested : Bus → EventDef → JSVal → TriggerResult)
    (rcd : EventRecord) (hint : rcd.definition.internal = true) :
    ∀ (subs : List Handler) (bus : Bus) (ctx : Ctx),
      runSyncGo nested rcd subs bus ctx =
        (bus, (chainRun rcd.definition.name subs ctx).1,
         (chainRun rcd.definition.name subs ctx).2.1.map TraceEv.invoked, true) := by
  intro subs
  induction subs with
  | nil => intro bus ctx; simp [runSyncGo, chainRun]
  | cons h tl ih =>
    intro bus ctx
    by_cases hs : ctx.stopped
    · simp [runSyncGo, chainRun, hs]
    · simp only [Bool.not_eq_true] at hs
      rcases hrc : h.run ctx with ⟨c1, r⟩
      cases r with
      | thr e => simp [runSyncGo, chainRun, hs, hrc, handleSubscriberError, hint]
      | ret v =>
        by_cases hv : isPromiseLike v
        · simp [runSyncGo, chainRun, hs, hrc, hv, handleSubscriberError, hint]
        · simp only [Bool.not_eq_true] at hv
          simp [runSyncGo, chainRun, hs, hrc, hv, ih]

theorem runSyncGo_quiet (nested : Bus → EventDef → JSVal → TriggerResult)
    (rcd : EventRecord) (P : Bus → Prop)
    (hn : ∀ bus p, P bus → (nested bus coreSubscriberError p).trace = [] ∧
      (nested bus coreSubscriberError p).outcome ≠ .fuelOut ∧
      P (nested bus coreSubscriberError p).bus) :
    ∀ (subs : List Handler) (bus : Bus) (ctx : Ctx), P bus →
      ∃ bus', runSyncGo nested rcd subs bus ctx =
        (bus', (chainRun rcd.definition.name subs ctx).1,
         (chainRun rcd.definition.name subs ctx).2.1.map TraceEv.invoked ++
           (if (chainRun rcd.definition.name subs ctx).2.2 && !rcd.definition.internal
            then [.lifecycle coreSubscriberError.name] else []),
         true) ∧ P bus' := by
  intro subs
  induction subs with
  | nil =>
    intro bus ctx hP
    exact ⟨bus, by simp [runSyncGo, chainRun], hP⟩
  | cons h tl ih =>
    intro bus ctx hP
    by_cases hs : ctx.stopped
    · exact ⟨bus, by simp [runSyncGo, chainRun, hs], hP⟩
    · simp only [Bool.not_eq_true] at hs
      have herrCase : ∃ bus', handleSubscriberError nested rcd bus =
          (bus', (if !rcd.definition.internal
            then [TraceEv.lifecycle coreSubscriberError.name] else []), true) ∧ P bus' := by
        by_cases hint : rcd.definition.internal
        · exact ⟨bus, by simp [handleSubscriberError, hint], hP⟩
        · obtain ⟨ht, ho, hPb⟩ := hn bus (.obj 0) hP
          refine ⟨(nested bus coreSubscriberError (.obj 0)).bus, ?_, hPb⟩
          rcases hoc : (nested bus coreSubscriberError (.obj 0)).outcome with c | e | _ | _ <;>
            simp_all [handleSubscriberError, hint]
      obtain ⟨busE, hE, hPE⟩ := herrCase
      rcases hrc : h.run ctx with ⟨c1, r⟩
      cases r with
      | thr e =>
        refine ⟨busE, ?_, hPE⟩
        simp [runSyncGo, chainRun, hs, hrc, hE]
      | ret v =>
        by_cases hv : isPromiseLike v
        · refine ⟨busE, ?_, hPE⟩
          simp [runSyncGo, chainRun, hs, hrc, hv, hE]
        · simp only [Bool.not_eq_true] at hv
          obtain ⟨bus', hgo, hP'⟩ :=
            ih bus (if v = JSVal.undefined then c1 else c1.setResult v) hP
          refine ⟨bus', ?_, hP'⟩
          simp [runSyncGo, chainRun, hs, hrc, hv, hgo]

/-! ### Nested lifecycle triggers over a quiet bus -/

theorem triggerFuel_succ (n : Nat) (bus : Bus) (d : EventDef) (p : JSVal)
    (opts : Option TriggerOptions) :
    triggerFuel (n + 1) bus d p opts =
      triggerStep (fun b cd pl => triggerFuel n b cd pl (some internalOpts)) bus d p opts := rfl

theorem nested_core (m : Nat) (b : Bus) (cd : EventDef) (pl : JSVal)
    (hq : coreQuietB b = true)
    (hcd : cd = coreBeforeTrigger ∨ cd = coreAfterTrigger ∨ cd = coreSubscriberError) :
    (triggerFuel (m + 1) b cd pl (some internalOpts)).trace = [] ∧
    (triggerFuel (m + 1) b cd pl (some internalOpts)).outcome ≠ .fuelOut ∧
    coreQuietB (triggerFuel (m + 1) b cd pl (some internalOpts)).bus = true := by
  have hint : cd.internal = true := by
    rcases hcd with h | h | h <;> subst h <;> rfl
  have hmode : cd.mode = .sync := by
    rcases hcd with h | h | h <;> subst h <;> rfl
  have hname : cd.name ∈ coreNames := by
    rcases hcd with h | h | h <;> subst h <;> simp [coreNames]
  rw [triggerFuel_succ]
  rcases hl : lookupRec b.events cd.name with _ | r
  · rw [triggerStep, ensureRecord_absent b cd hl]
    simp only [hint, if_true, hmode]
    rw [runSyncGo_internal _ _ hint]
    refine ⟨by simp [throwOn, internalOpts, chainRun], by simp [throwOn, internalOpts, chainRun], ?_⟩
    simpa [throwOn, internalOpts, chainRun] using coreQuiet_insert b cd hq hint
  · obtain ⟨hrint, hrsubs⟩ := coreQuiet_lookup b hq cd.name hname r hl
    rw [triggerStep, ensureRecord_present b cd r hl]
    simp only [hrint, if_true]
    rcases hrm : r.definition.mode with _ | _
    · rw [runSyncGo_internal _ _ hrint]
      exact ⟨by simp [throwOn, internalOpts, chainRun, hrsubs],
        by simp [throwOn, internalOpts, chainRun, hrsubs],
        by simpa [throwOn, internalOpts, chainRun, hrsubs] using hq⟩
    · exact ⟨rfl, by simp, hq⟩

theorem triggerStep_sync (nested : Bus → EventDef → JSVal → TriggerResult)
    (bus : Bus) (d : EventDef) (p : JSVal) (opts : Option TriggerOptions)
    (rcd : EventRecord) (P : Bus → Prop) (c2 : Ctx) (ids : List Nat) (err : Bool)
    (hl : lookupRec bus.events d.name = some rcd)
    (hm : rcd.definition.mode = .sync)
    (hP : P bus)
    (hn : ∀ b cd pl, P b →
      (cd = coreBeforeTrigger ∨ cd = coreAfterTrigger ∨ cd = coreSubscriberError) →
      (nested b cd pl).trace = [] ∧ (nested b cd pl).outcome ≠ .fuelOut ∧
        P (nested b cd pl).bus)
    (hc : chainRun rcd.definition.name rcd.subscribers
      (Ctx.mk0 rcd.definition p (resolveInitialResult rcd.definition opts)
        (optMeta opts) (decide (0 < rcd.subscribers.length))) = (c2, ids, err)) :
    ∃ bus', triggerStep nested bus d p opts =
      ⟨bus', mainTrace rcd.definition.internal ids err,
        if throwOn opts && c2.stoppedForError && truthy c2.error
        then .threw c2.error else .ret c2⟩ ∧ P bus' := by
  have hnSub : ∀ b pl, P b → (nested b coreSubscriberError pl).trace = [] ∧
      (nested b coreSubscriberError pl).outcome ≠ .fuelOut ∧
      P (nested b coreSubscriberError pl).bus :=
    fun b pl hPb => hn b coreSubscriberError pl hPb (Or.inr (Or.inr rfl))
  rw [triggerStep, ensureRecord_present bus d rcd hl]
  by_cases hint : rcd.definition.internal
  · simp only [hint, if_true, hm]
    rw [runSyncGo_internal _ _ hint]
    simp only [hc]
    refine ⟨bus, ?_, hP⟩
    cases hcond : throwOn opts && c2.stoppedForError && truthy c2.error with
    | false => simp [mainTrace, hint, hcond]
    | true => simp [mainTrace, hint, hcond]
  · simp only [Bool.not_eq_true] at hint
    simp only [hint, Bool.false_eq_true, if_false]
    obtain ⟨ht1, ho1, hP1⟩ := hn bus coreBeforeTrigger (.obj 0) hP (Or.inl rfl)
    have hnotify1 : notifyInternal nested bus coreBeforeTrigger (.obj 0) =
        ((nested bus coreBeforeTrigger (.obj 0)).bus,
         [TraceEv.lifecycle coreBeforeTrigger.name], true) := by
      rcases hoc : (nested bus coreBeforeTrigger (.obj 0)).outcome with c | e | _ | _ <;>
        simp_all [notifyInternal]
    rw [hnotify1]
    simp only [hm]
    obtain ⟨bus3, hgo, hP3⟩ := runSyncGo_quiet nested rcd P hnSub rcd.subscribers
      (nested bus coreBeforeTrigger (.obj 0)).bus
      (Ctx.mk0 rcd.definition p (resolveInitialResult rcd.definition opts)
        (optMeta opts) (decide (0 < rcd.subscribers.length))) hP1
    rw [hgo]
    simp only [hc]
    obtain ⟨ht3, ho3, hP4⟩ := hn bus3 coreAfterTrigger (.obj 0) hP3 (Or.inr (Or.inl rfl))
    have hnotify3 : notifyInternal nested bus3 coreAfterTrigger (.obj 0) =
        ((nested bus3 coreAfterTrigger (.obj 0)).bus,
         [TraceEv.lifecycle coreAfterTrigger.name], true) := by
      rcases hoc : (nested bus3 coreAfterTrigger (.obj 0)).outcome with c | e | _ | _ <;>
        simp_all [notifyInternal]
    rw [hnotify3]
    refine ⟨(nested bus3 coreAfterTrigger (.obj 0)).bus, ?_, hP4⟩
    cases hcond : throwOn opts && c2.stoppedForError && truthy c2.error with
    | false => simp [mainTrace, hint, hcond]
    | true => simp [mainTrace, hint, hcond]

/-! ### Registry monotonicity: trigger only adds entries -/

theorem busLe_refl (b : Bus) : busLe b b := fun _ _ h => h

theorem busLe_trans {a b c : Bus} (h1 : busLe a b) (h2 : busLe b c) : busLe a c :=
  fun nm r h => h2 nm r (h1 nm r h)

theorem busLe_setRec_fresh (bus : Bus) (nm : String) (r : EventRecord)
    (h : lookupRec bus.events nm = none) : busLe bus ⟨setRec bus.events nm r⟩ := by
  intro nm' r' h'
  by_cases hc : nm' = nm
  · subst hc
    rw [h] at h'
    cases h'
  · rw [lookup_setRec_other _ _ _ _ hc]
    exact h'

theorem busLe_ensureRecord (bus : Bus) (d : EventDef) :
    busLe bus (ensureRecord bus d).1 := by
  rcases hl : lookupRec bus.events d.name with _ | r
  · rw [ensureRecord_absent bus d hl]
    exact busLe_setRec_fresh bus d.name _ hl
  · rw [ensureRecord_present bus d r hl]
    exact busLe_refl bus

theorem busLe_handleSub (nested : Bus → EventDef → JSVal → TriggerResult)
    (rcd : EventRecord) (bus : Bus)
    (hn : ∀ b cd pl, busLe b (nested b cd pl).bus) :
    busLe bus (handleSubscriberError nested rcd bus).1 := by
  by_cases hint : rcd.definition.internal
  · simp [handleSubscriberError, hint]
    exact busLe_refl bus
  · have := hn bus coreSubscriberError (.obj 0)
    rcases hoc : (nested bus coreSubscriberError (.obj 0)).outcome with c | e | _ | _ <;>
      simpa [handleSubscriberError, hint, hoc] using this

theorem busLe_notify (nested : Bus → EventDef → JSVal → TriggerResult)
    (bus : Bus) (cd : EventDef) (p : JSVal)
    (hn : ∀ b cd pl, busLe b (nested b cd pl).bus) :
    busLe bus (notifyInternal nested bus cd p).1 := by
  have := hn bus cd p
  rcases hoc : (nested bus cd p).outcome with c | e | _ | _ <;>
    simpa [notifyInternal, hoc] using this

theorem busLe_runSyncGo (nested : Bus → EventDef → JSVal → TriggerResult)
    (rcd : EventRecord) (hn : ∀ b cd pl, busLe b (nested b cd pl).bus) :
    ∀ (subs : List Handler) (bus : Bus) (ctx : Ctx),
      busLe bus (runSyncGo nested rcd subs bus ctx).1 := by
  intro subs
  induction subs with
  | nil =>
    intro bus ctx
    simpa [runSyncGo] using busLe_refl bus
  | cons h tl ih =>
    intro bus ctx
    by_cases hs : ctx.stopped
    · simpa [runSyncGo, hs] using busLe_refl bus
    · simp only [Bool.not_eq_true] at hs
      rcases hrc : h.run ctx with ⟨c1, r⟩
      cases r with
      | thr e =>
        simpa [runSyncGo, hs, hrc] using busLe_handleSub nested rcd bus hn
      | ret v =>
        by_cases hv : isPromiseLike v
        · simpa [runSyncGo, hs, hrc, hv] using busLe_handleSub nested rcd bus hn
        · simp only [Bool.not_eq_true] at hv
          simpa [runSyncGo, hs, hrc, hv] using
            ih bus (if v = JSVal.undefined then c1 else c1.setResult v)

theorem busLe_triggerStep_from (nested : Bus → EventDef → JSVal → TriggerResult)
    (hn : ∀ b cd pl, busLe b (nested b cd pl).bus)
    (bus : Bus) (d : EventDef) (p : JSVal) (opts : Option TriggerOptions) :
    busLe (ensureRecord bus d).1 (triggerStep nested bus d p opts).bus := by
  rw [triggerStep]
  rcases he : ensureRecord bus d with ⟨bus1, rcd⟩
  dsimp only
  have h1 : busLe bus1 bus1 := busLe_refl bus1
  by_cases hint : rcd.definition.internal
  · simp only [hint, if_true]
    cases hm : rcd.definition.mode with
    | async => exact h1
    | sync =>
      rcases hg : runSyncGo nested rcd rcd.subscribers bus1
          (Ctx.mk0 rcd.definition p (resolveInitialResult rcd.definition opts)
            (optMeta opts) (decide (0 < rcd.subscribers.length))) with ⟨bus2, c2, tr2, ok⟩
      dsimp only
      have h2 : busLe bus1 bus2 := by
        have := busLe_runSyncGo nested rcd hn rcd.subscribers bus1
          (Ctx.mk0 rcd.definition p (resolveInitialResult rcd.definition opts)
            (optMeta opts) (decide (0 < rcd.subscribers.length)))
        rw [hg] at this
        exact busLe_trans h1 this
      cases ok with
      | false => simpa using h2
      | true =>
        cases hcond : throwOn opts && c2.stoppedForError && truthy c2.error <;>
          simpa [hcond] using h2
  · simp only [hint, Bool.false_eq_true, if_false]
    rcases hb : notifyInternal nested bus1 coreBeforeTrigger (.obj 0) with ⟨bus2, tr1, okb⟩
    have h2 : busLe bus1 bus2 := by
      have := busLe_notify nested bus1 coreBeforeTrigger (.obj 0) hn
      rw [hb] at this
      exact busLe_trans h1 this
    cases okb with
    | false => exact h2
    | true =>
      dsimp only
      cases hm : rcd.definition.mode with
      | async => exact h2
      | sync =>
        rcases hg : runSyncGo nested rcd rcd.subscribers bus2
            (Ctx.mk0 rcd.definition p (resolveInitialResult rcd.definition opts)
              (optMeta opts) (decide (0 < rcd.subscribers.length))) with ⟨bus3, c2, tr2, ok⟩
        dsimp only
        have h3 : busLe bus1 bus3 := by
          have := busLe_runSyncGo nested rcd hn rcd.subscribers bus2
            (Ctx.mk0 rcd.definition p (resolveInitialResult rcd.definition opts)
              (optMeta opts) (decide (0 < rcd.subscribers.length)))
          rw [hg] at this
          exact busLe_trans h2 this
        cases ok with
        | false => simpa using h3
        | true =>
          rcases ha : notifyInternal nested bus3 coreAfterTrigger (.obj 0) with ⟨bus4, tr3, oka⟩
          have h4 : busLe bus1 bus4 := by
            have := busLe_notify nested bus3 coreAfterTrigger (.obj 0) hn
            rw [ha] at this
            exact busLe_trans h3 this
          cases oka with
          | false => simpa using h4
          | true =>
            cases hcond : throwOn opts && c2.stoppedForError && truthy c2.error <;>
              simpa [hcond] using h4

theorem busLe_triggerStep (nested : Bus → EventDef → JSVal → TriggerResult)
    (hn : ∀ b cd pl, busLe b (nested b cd pl).bus)
    (bus : Bus) (d : EventDef) (p : JSVal) (opts : Option TriggerOptions) :
    busLe bus (triggerStep nested bus d p opts).bus :=
  busLe_trans (busLe_ensureRecord bus d) (busLe_triggerStep_from nested hn bus d p opts)

theorem busLe_triggerFuel :
    ∀ (f : Nat) (bus : Bus) (d : EventDef) (p : JSVal) (opts : Option TriggerOptions),
      busLe bus (triggerFuel f bus d p opts).bus := by
  intro f
  induction f with
  | zero => intro bus d p opts; exact busLe_refl bus
  | succ n ih =>
    intro bus d p opts
    rw [triggerFuel_succ]
    exact busLe_triggerStep _ (fun b cd pl => ih b cd pl (some internalOpts)) bus d p opts

/-! ### Registry invariance when everything is already registered -/

theorem handleSub_fixed (nested : Bus → EventDef → JSVal → TriggerResult)
    (rcd : EventRecord) (bus : Bus)
    (hn : ∀ pl, (nested bus coreSubscriberError pl).bus = bus) :
    (handleSubscriberError nested rcd bus).1 = bus := by
  by_cases hint : rcd.definition.internal
  · simp [handleSubscriberError, hint]
  · rcases hoc : (nested bus coreSubscriberError (.obj 0)).outcome with c | e | _ | _ <;>
      simp [handleSubscriberError, hint, hoc, hn]

theorem notify_fixed (nested : Bus → EventDef → JSVal → TriggerResult)
    (bus : Bus) (cd : EventDef) (p : JSVal) (hn : (nested bus cd p).bus = bus) :
    (notifyInternal nested bus cd p).1 = bus := by
  rcases hoc : (nested bus cd p).outcome with c | e | _ | _ <;>
    simp [notifyInternal, hoc, hn]

theorem runSyncGo_fixed (nested : Bus → EventDef → JSVal → TriggerResult)
    (rcd : EventRecord) (bus : Bus)
    (hn : ∀ pl, (nested bus coreSubscriberError pl).bus = bus) :
    ∀ (subs : List Handler) (ctx : Ctx), (runSyncGo nested rcd subs bus ctx).1 = bus := by
  intro subs
  induction subs with
  | nil => intro ctx; simp [runSyncGo]
  | cons h tl ih =>
    intro ctx
    by_cases hs : ctx.stopped
    · simp [runSyncGo, hs]
    · simp only [Bool.not_eq_true] at hs
      rcases hrc : h.run ctx with ⟨c1, r⟩
      cases r with
      | thr e => simp [runSyncGo, hs, hrc, handleSub_fixed nested rcd bus hn]
      | ret v =>
        by_cases hv : isPromiseLike v
        · simp [runSyncGo, hs, hrc, hv, handleSub_fixed nested rcd bus hn]
        · simp only [Bool.not_eq_true] at hv
          simp [runSyncGo, hs, hrc, hv, ih]

theorem coreRegistered_mem (bus : Bus) (h : coreRegistered bus = true) (nm : String)
    (hm : nm ∈ coreNames) : (lookupRec bus.events nm).isSome = true :=
  List.all_eq_true.mp h nm hm

theorem triggerFuel_fixed :
    ∀ (f : Nat) (bus : Bus) (d : EventDef) (p : JSVal) (opts : Option TriggerOptions),
      coreRegistered bus = true → (lookupRec bus.events d.name).isSome = true →
      (triggerFuel f bus d p opts).bus = bus := by
  intro f
  induction f with
  | zero => intro bus d p opts _ _; rfl
  | succ n ih =>
    intro bus d p opts hcore hreg
    rw [triggerFuel_succ]
    rcases hl : lookupRec bus.events d.name with _ | rcd
    · rw [hl] at hreg
      cases hreg
    · have hnested : ∀ (cd : EventDef) (pl : JSVal), cd.name ∈ coreNames →
          (triggerFuel n bus cd pl (some internalOpts)).bus = bus :=
        fun cd pl hcd =>
          ih bus cd pl (some internalOpts) hcore (coreRegistered_mem bus hcore cd.name hcd)
      have hsubfix : ∀ pl, (triggerFuel n bus coreSubscriberError pl (some internalOpts)).bus = bus :=
        fun pl => hnested coreSubscriberError pl (by simp [coreNames])
      rw [triggerStep, ensureRecord_present bus d rcd hl]
      dsimp only
      by_cases hint : rcd.definition.internal
      · simp only [hint, if_true]
        cases hm : rcd.definition.mode with
        | async => rfl
        | sync =>
          rcases hg : runSyncGo (fun b cd pl => triggerFuel n b cd pl (some internalOpts))
              rcd rcd.subscribers bus
              (Ctx.mk0 rcd.definition p (resolveInitialResult rcd.definition opts)
                (optMeta opts) (decide (0 < rcd.subscribers.length))) with ⟨bus2, c2, tr2, ok⟩
          dsimp only
          have hb2 : bus2 = bus := by
            have := runSyncGo_fixed (fun b cd pl => triggerFuel n b cd pl (some internalOpts))
              rcd bus hsubfix rcd.subscribers
              (Ctx.mk0 rcd.definition p (resolveInitialResult rcd.definition opts)
                (optMeta opts) (decide (0 < rcd.subscribers.length)))
            rw [hg] at this
            exact this
          subst hb2
          cases ok with
          | false => simp
          | true =>
            cases hcond : throwOn opts && c2.stoppedForError && truthy c2.error <;>
              simp [hcond]
      · simp only [hint, Bool.false_eq_true, if_false]
        rcases hb : notifyInternal (fun b cd pl => triggerFuel n b cd pl (some internalOpts))
            bus coreBeforeTrigger (.obj 0) with ⟨bus2, tr1, okb⟩
        have hb2 : bus2 = bus := by
          have := notify_fixed (fun b cd pl => triggerFuel n b cd pl (some internalOpts))
            bus coreBeforeTrigger (.obj 0)
            (hnested coreBeforeTrigger (.obj 0) (by simp [coreNames]))
          rw [hb] at this
          exact this
        subst hb2
        cases okb with
        | false => rfl
        | true =>
          dsimp only
          cases hm : rcd.definition.mode with
          | async => rfl
          | sync =>
            rcases hg : runSyncGo (fun b cd pl => triggerFuel n b cd pl (some internalOpts))
                rcd rcd.subscribers bus2
                (Ctx.mk0 rcd.definition p (resolveInitialResult rcd.definition opts)
                  (optMeta opts) (decide (0 < rcd.subscribers.length))) with ⟨bus3, c2, tr2, ok⟩
            dsimp only
            have hb3 : bus3 = bus2 := by
              have := runSyncGo_fixed (fun b cd pl => triggerFuel n b cd pl (some internalOpts))
                rcd bus2 hsubfix rcd.subscribers
                (Ctx.mk0 rcd.definition p (resolveInitialResult rcd.definition opts)
                  (optMeta opts) (decide (0 < rcd.subscribers.length)))
              rw [hg] at this
              exact this
            subst hb3
            cases ok with
            | false => simp
            | true =>
              rcases ha : notifyInternal (fun b cd pl => triggerFuel n b cd pl (some internalOpts))
                  bus3 coreAfterTrigger (.obj 0) with ⟨bus4, tr3, oka⟩
              have hb4 : bus4 = bus3 := by
                have := notify_fixed (fun b cd pl => triggerFuel n b cd pl (some internalOpts))
                  bus3 coreAfterTrigger (.obj 0)
                  (hnested coreAfterTrigger (.obj 0) (by simp [coreNames]))
                rw [ha] at this
                exact this
              subst hb4
              cases oka with
              | false => rfl
              | true =>
                cases hcond : throwOn opts && c2.stoppedForError && truthy c2.error <;>
                  simp [hcond]

/-! ### Trace and chain helpers -/

theorem invokedIds_map (ids : List Nat) :
    invokedIds (ids.map TraceEv.invoked) = ids := by
  induction ids with
  | nil => rfl
  | cons i tl ih => simp [invokedIds] at ih ⊢; exact ih

theorem lifecycleNames_map_invoked (ids : List Nat) :
    lifecycleNames (ids.map TraceEv.invoked) = [] := by
  induction ids with
  | nil => rfl
  | cons i tl ih =>
    simp only [List.map_cons, lifecycleNames, List.filterMap_cons] at ih ⊢
    exact ih

theorem invokedIds_append (a b : List TraceEv) :
    invokedIds (a ++ b) = invokedIds a ++ invokedIds b := by
  simp [invokedIds]

theorem invokedIds_lifecycle (nm : String) :
    invokedIds [TraceEv.lifecycle nm] = [] := rfl

theorem invokedIds_cons_lifecycle (nm : String) (tl : List TraceEv) :
    invokedIds (TraceEv.lifecycle nm :: tl) = invokedIds tl := by
  simp [invokedIds]

theorem invokedIds_mainTrace (intl : Bool) (ids : List Nat) (err : Bool) :
    invokedIds (mainTrace intl ids err) = ids := by
  cases intl <;> cases err <;>
    simp [mainTrace, invokedIds_append, invokedIds_lifecycle, invokedIds_map,
      invokedIds_cons_lifecycle, show invokedIds [] = [] from rfl]

theorem after_mem_mainTrace (ids : List Nat) (err : Bool) :
    TraceEv.lifecycle coreAfterTrigger.name ∈ mainTrace false ids err := by
  simp [mainTrace]

theorem chainRun_clean (nm : String) (subs : List Handler) (vs : List JSVal) (c : Ctx)
    (hf : List.Forall₂ ConstRet subs vs) (hp : ∀ v ∈ vs, isPromiseLike v = false)
    (hs : c.stopped = false) :
    chainRun nm subs c =
      ({ c with result := lastAssigned c.result vs }, subs.map (·.hid), false) := by
  have := chainRun_clean_front nm subs vs [] c hf hp hs
  simpa [chainRun] using this

theorem trigger_sync_run (n : Nat) (bus : Bus) (d : EventDef) (p : JSVal)
    (opts : Option TriggerOptions) (rcd : EventRecord) (c2 : Ctx) (ids : List Nat)
    (err : Bool)
    (hl : lookupRec bus.events d.name = some rcd)
    (hm : rcd.definition.mode = .sync)
    (hq : coreQuietB bus = true)
    (hc : chainRun rcd.definition.name rcd.subscribers
      (Ctx.mk0 rcd.definition p (resolveInitialResult rcd.definition opts)
        (optMeta opts) (decide (0 < rcd.subscribers.length))) = (c2, ids, err)) :
    ∃ bus', triggerFuel (n + 2) bus d p opts =
      ⟨bus', mainTrace rcd.definition.internal ids err,
       if throwOn opts && c2.stoppedForError && truthy c2.error
       then .threw c2.error else .ret c2⟩ := by
  rw [show n + 2 = (n + 1) + 1 from rfl, triggerFuel_succ]
  obtain ⟨bus', h, _⟩ := triggerStep_sync _ bus d p opts rcd (fun b => coreQuietB b = true)
    c2 ids err hl hm hq (fun b cd pl hPb hcd => nested_core n b cd pl hPb hcd) hc
  exact ⟨bus', h⟩

/-! ### Invocation-context invariant helpers -/

theorem stopped_mono_op (c : Ctx) (op : CtxOp) (h : c.stopped = true) :
    (applyOp c op).stopped = true := by
  cases op <;> simp [applyOp, Ctx.setResult, Ctx.stop, Ctx.stopForError, h]

theorem stopped_mono (ops : List CtxOp) : ∀ (c : Ctx), c.stopped = true →
    (applyOps c ops).stopped = true := by
  induction ops with
  | nil => intro c h; exact h
  | cons op tl ih =>
    intro c h
    simpa [applyOps] using ih (applyOp c op) (stopped_mono_op c op h)

theorem ctxInv_ops (ops : List CtxOp) : ∀ (c : Ctx),
    (c.stoppedForError = true → c.stopped = true) →
    (c.error ≠ .undefined → c.stoppedForError = true) →
    ((applyOps c ops).stoppedForError = true → (applyOps c ops).stopped = true) ∧
    ((applyOps c ops).error ≠ .undefined → (applyOps c ops).stoppedForError = true) := by
  induction ops with
  | nil => intro c h1 h2; exact ⟨h1, h2⟩
  | cons op tl ih =>
    intro c h1 h2
    have hstep : ((applyOp c op).stoppedForError = true → (applyOp c op).stopped = true) ∧
        ((applyOp c op).error ≠ .undefined → (applyOp c op).stoppedForError = true) := by
      cases op with
      | setResult v => exact ⟨h1, h2⟩
      | stop r =>
        exact ⟨fun _ => rfl, h2⟩
      | stopForError e r => exact ⟨fun _ => rfl, fun _ => rfl⟩
    simpa [applyOps] using ih (applyOp c op) hstep.1 hstep.2

theorem ctxErr_defined (ops : List CtxOp) : ∀ (c : Ctx), definedErrors ops = true →
    ((c.error ≠ .undefined) ↔ c.stoppedForError = true) →
    (((applyOps c ops).error ≠ .undefined) ↔ (applyOps c ops).stoppedForError = true) := by
  induction ops with
  | nil => intro c _ hinv; exact hinv
  | cons op tl ih =>
    intro c hde hinv
    have hde' : definedErrors tl = true := by
      simp [definedErrors] at hde ⊢
      exact hde.2
    have hstep : ((applyOp c op).error ≠ .undefined) ↔ (applyOp c op).stoppedForError = true := by
      cases op with
      | setResult v => exact hinv
      | stop r => exact hinv
      | stopForError e r =>
        have he : e ≠ JSVal.undefined := by
          simp [definedErrors] at hde
          exact hde.1
        simp [applyOp, Ctx.stopForError, Ctx.stop, he]
    simpa [applyOps] using ih (applyOp c op) hde' hstep

/-! ### Claim theorems -/

/-- C3: `registerEvent(descriptor)` inserts a new entry when the name is
unseen; when the name is already registered with a different mode it fails
with a Configuration error; when the name is already registered with the
same mode (even via a different descriptor object) it returns the existing
stored descriptor without error and leaves the stored entry and its
subscribers unchanged (the bus is returned untouched), so re-registration
with the same name and mode is idempotent. -/
theorem registerEvent_spec (bus : Bus) (d : EventDef) :
    (lookupRec bus.events d.name = none →
      registerEvent bus d = .ok (⟨setRec bus.events d.name ⟨d, []⟩⟩, d) ∧
      lookupRec (setRec bus.events d.name ⟨d, []⟩) d.name = some ⟨d, []⟩) ∧
    (∀ r, lookupRec bus.events d.name = some r → r.definition.mode ≠ d.mode →
      ∃ msg, registerEvent bus d = .error msg) ∧
    (∀ r, lookupRec bus.events d.name = some r → r.definition.mode = d.mode →
      registerEvent bus d = .ok (bus, r.definition)) := by
  refine ⟨?_, ?_, ?_⟩
  · intro h
    exact ⟨by simp [registerEvent, h], lookup_setRec_self _ _ _⟩
  · intro r h hm
    have hne : r.definition ≠ d := fun he => hm (by rw [he])
    exact ⟨"Event \"" ++ d.name ++ "\" already registered with mode \"" ++
      modeStr r.definition.mode ++ "\".", by simp [registerEvent, h, hne, hm]⟩
  · intro r h hm
    by_cases he : r.definition = d
    · simp [registerEvent, h, he]
    · simp [registerEvent, h, he, hm]

/-- Witness for C3: insertion of an unseen name, mode-conflict failure, and
same-mode idempotent re-registration through a distinct descriptor object,
each at a concrete input. -/
theorem registerEvent_spec_witness :
    registerEvent defaultBus sampleDef =
        .ok (⟨setRec defaultBus.events "x" ⟨sampleDef, []⟩⟩, sampleDef) ∧
    (∃ msg, registerEvent (busWith []) sampleDefAsync = .error msg) ∧
    registerEvent (busWith []) sampleDefCopy = .ok (busWith [], sampleDef) := by
  refine ⟨((registerEvent_spec defaultBus sampleDef).1 (by rfl)).1,
    (registerEvent_spec (busWith []) sampleDefAsync).2.1 ⟨sampleDef, []⟩ (by rfl) (by decide),
    ?_⟩
  exact (registerEvent_spec (busWith []) sampleDefCopy).2.2 ⟨sampleDef, []⟩ (by rfl) (by decide)

/-- C4: for every trigger call the initial result is resolved with strict
precedence — an `initialResult` key present on the options wins (even when
its value is `undefined`), otherwise the stored definition's
`createInitialResult` factory value is used, otherwise `undefined`; and a
sync trigger with no subscribers returns a context whose `result` is
exactly this resolved value. -/
theorem initial_result_precedence :
    (∀ (d : EventDef) (v : JSVal) (b : Bool) (m : Option JSVal),
      resolveInitialResult d (some ⟨some v, b, m⟩) = v) ∧
    (∀ (d : EventDef) (fv : JSVal) (b : Bool) (m : Option JSVal),
      d.createInitialResult = some fv →
        resolveInitialResult d (some ⟨none, b, m⟩) = fv ∧
        resolveInitialResult d none = fv) ∧
    (∀ (d : EventDef) (b : Bool) (m : Option JSVal),
      d.createInitialResult = none →
        resolveInitialResult d (some ⟨none, b, m⟩) = .undefined ∧
        resolveInitialResult d none = .undefined) ∧
    (∀ (n : Nat) (bus : Bus) (d : EventDef) (p : JSVal) (opts : Option TriggerOptions)
      (rcd : EventRecord),
      lookupRec bus.events d.name = some rcd → rcd.definition.mode = .sync →
      rcd.subscribers = [] → coreQuietB bus = true →
      ∃ bus' tr c, triggerFuel (n + 2) bus d p opts = ⟨bus', tr, .ret c⟩ ∧
        c.result = resolveInitialResult rcd.definition opts) := by
  refine ⟨fun d v b m => rfl,
    fun d fv b m h => ⟨by simp [resolveInitialResult, h], by simp [resolveInitialResult, h]⟩,
    fun d b m h => ⟨by simp [resolveInitialResult, h], by simp [resolveInitialResult, h]⟩,
    ?_⟩
  intro n bus d p opts rcd hl hm hsubs hq
  have hc : chainRun rcd.definition.name rcd.subscribers
      (Ctx.mk0 rcd.definition p (resolveInitialResult rcd.definition opts)
        (optMeta opts) (decide (0 < rcd.subscribers.length))) =
      (Ctx.mk0 rcd.definition p (resolveInitialResult rcd.definition opts)
        (optMeta opts) (decide (0 < rcd.subscribers.length)), [], false) := by
    rw [hsubs]
    rfl
  obtain ⟨bus', hstep⟩ := trigger_sync_run n bus d p opts rcd _ [] false hl hm hq hc
  refine ⟨bus', mainTrace rcd.definition.internal [] false,
    Ctx.mk0 rcd.definition p (resolveInitialResult rcd.definition opts)
      (optMeta opts) (decide (0 < rcd.subscribers.length)), ?_, rfl⟩
  rw [hstep]
  simp [Ctx.mk0]

/-- Witness for C4: the present-key override (with a defined and with an
`undefined` value), the factory fallback, the empty default, and the
zero-subscriber trigger, at concrete inputs. -/
theorem initial_result_precedence_witness :
    resolveInitialResult sampleDefFac (some ⟨some (.num 7), false, none⟩) = .num 7 ∧
    resolveInitialResult sampleDefFac (some ⟨some .undefined, false, none⟩) = .undefined ∧
    resolveInitialResult sampleDefFac (some ⟨none, false, none⟩) = .num 5 ∧
    resolveInitialResult sampleDefFac none = .num 5 ∧
    resolveInitialResult sampleDef none = .undefined ∧
    (∃ bus' tr c, triggerFuel 2 (busWith []) sampleDef .undefined none = ⟨bus', tr, .ret c⟩ ∧
      c.result = resolveInitialResult sampleDef none) := by
  refine ⟨initial_result_precedence.1 sampleDefFac (.num 7) false none,
    initial_result_precedence.1 sampleDefFac .undefined false none,
    (initial_result_precedence.2.1 sampleDefFac (.num 5) false none rfl).1,
    (initial_result_precedence.2.1 sampleDefFac (.num 5) false none rfl).2,
    (initial_result_precedence.2.2.1 sampleDef false none rfl).2,
    ?_⟩
  exact initial_result_precedence.2.2.2 0 (busWith []) sampleDef .undefined none
    ⟨sampleDef, []⟩ (by rfl) rfl rfl (by rfl)

/-- C5 counterexample: calling `stop` twice with two different reasons
leaves the reason of the LATER call on the context — the first recorded
reason is overwritten, contradicting the claim that the first call wins. -/
theorem stop_reason_overwrite_cex :
    (((Ctx.mk0 sampleDef .undefined .undefined none false).stop (some "a")).stop
        (some "b")).stoppedReason = some "b" ∧
    (((Ctx.mk0 sampleDef .undefined .undefined none false).stop (some "a")).stop
        (some "b")).stoppedReason ≠ some "a" := by
  decide

/-- C5 amended: when `stop` is called more than once within one invocation,
the reason recorded by the LAST call wins (each call overwrites the reason
field unconditionally), while the context remains stopped. -/
theorem stop_reason_last_wins (c : Ctx) (r1 r2 : Option String) :
    ((c.stop r1).stop r2).stoppedReason = r2 ∧ ((c.stop r1).stop r2).stopped = true :=
  ⟨rfl, rfl⟩

/-- C6 counterexample: the sequence consisting of the single operation
`stopForError(undefined)` yields a context with `stoppedForError = true`
whose `error` is `undefined`, so "error is set if and only if
stoppedForError" fails on the code. -/
theorem ctx_error_iff_cex :
    (applyOps (Ctx.mk0 sampleDef .undefined .undefined none false)
        [.stopForError .undefined none]).stoppedForError = true ∧
    (applyOps (Ctx.mk0 sampleDef .undefined .undefined none false)
        [.stopForError .undefined none]).error = .undefined ∧
    ¬(((applyOps (Ctx.mk0 sampleDef .undefined .undefined none false)
        [.stopForError .undefined none]).error ≠ .undefined) ↔
      (applyOps (Ctx.mk0 sampleDef .undefined .undefined none false)
        [.stopForError .undefined none]).stoppedForError = true) := by
  decide

/-- C6 amended: over every sequence of `setResult`/`stop`/`stopForError`
operations on a fresh invocation context, (i) once `stopped` is true it
never reverts, (ii) `stoppedForError` implies `stopped`, (iii) a defined
`error` implies `stoppedForError`, and (iv) the full "error is set iff
stoppedForError" equivalence holds provided every `stopForError` in the
sequence passed a defined (non-`undefined`) error value. -/
theorem ctx_invariants (d : EventDef) (p ir : JSVal) (m : Option JSVal) (hs : Bool)
    (ops extra : List CtxOp) :
    ((applyOps (Ctx.mk0 d p ir m hs) ops).stopped = true →
      (applyOps (Ctx.mk0 d p ir m hs) (ops ++ extra)).stopped = true) ∧
    ((applyOps (Ctx.mk0 d p ir m hs) ops).stoppedForError = true →
      (applyOps (Ctx.mk0 d p ir m hs) ops).stopped = true) ∧
    ((applyOps (Ctx.mk0 d p ir m hs) ops).error ≠ .undefined →
      (applyOps (Ctx.mk0 d p ir m hs) ops).stoppedForError = true) ∧
    (definedErrors ops = true →
      (((applyOps (Ctx.mk0 d p ir m hs) ops).error ≠ .undefined) ↔
        (applyOps (Ctx.mk0 d p ir m hs) ops).stoppedForError = true)) := by
  have hinv := ctxInv_ops ops (Ctx.mk0 d p ir m hs)
    (by simp [Ctx.mk0]) (by simp [Ctx.mk0])
  refine ⟨?_, hinv.1, hinv.2, ?_⟩
  · intro h
    rw [applyOps, List.foldl_append]
    exact stopped_mono extra _ h
  · intro hde
    exact ctxErr_defined ops (Ctx.mk0 d p ir m hs) hde (by simp [Ctx.mk0])

/-- Witness for C6: the amended invariants applied to a concrete operation
sequence with a defined error value. -/
theorem ctx_invariants_witness :
    (applyOps (Ctx.mk0 sampleDef .undefined .undefined none false)
        ([.stopForError (.obj 1) (some "boom")] ++ [.setResult (.num 3)])).stopped = true ∧
    (applyOps (Ctx.mk0 sampleDef .undefined .undefined none false)
        [.stopForError (.obj 1) (some "boom")]).stopped = true ∧
    (applyOps (Ctx.mk0 sampleDef .undefined .undefined none false)
        [.stopForError (.obj 1) (some "boom")]).stoppedForError = true ∧
    (((applyOps (Ctx.mk0 sampleDef .undefined .undefined none false)
        [.stopForError (.obj 1) (some "boom")]).error ≠ .undefined) ↔
      (applyOps (Ctx.mk0 sampleDef .undefined .undefined none false)
        [.stopForError (.obj 1) (some "boom")]).stoppedForError = true) := by
  have h := ctx_invariants sampleDef .undefined .undefined none false
    [.stopForError (.obj 1) (some "boom")] [.setResult (.num 3)]
  exact ⟨h.1 (by decide), h.2.1 (by decide), h.2.2.1 (by decide), h.2.2.2 (by decide)⟩

theorem trigger_sync_run_ok (n : Nat) (bus : Bus) (d : EventDef) (p : JSVal)
    (opts : Option TriggerOptions) (rcd : EventRecord) (c2 : Ctx) (ids : List Nat)
    (err : Bool)
    (hl : lookupRec bus.events d.name = some rcd)
    (hm : rcd.definition.mode = .sync)
    (hq : coreQuietB bus = true)
    (hc : chainRun rcd.definition.name rcd.subscribers
      (Ctx.mk0 rcd.definition p (resolveInitialResult rcd.definition opts)
        (optMeta opts) (decide (0 < rcd.subscribers.length))) = (c2, ids, err))
    (hsf : c2.stoppedForError = false) :
    ∃ bus', triggerFuel (n + 2) bus d p opts =
      ⟨bus', mainTrace rcd.definition.internal ids err, .ret c2⟩ := by
  obtain ⟨bus', h⟩ := trigger_sync_run n bus d p opts rcd c2 ids err hl hm hq hc
  refine ⟨bus', ?_⟩
  rw [h]
  simp [hsf]

theorem trigger_sync_run_err (n : Nat) (bus : Bus) (d : EventDef) (p : JSVal)
    (opts : Option TriggerOptions) (rcd : EventRecord) (c2 : Ctx) (ids : List Nat)
    (err : Bool)
    (hl : lookupRec bus.events d.name = some rcd)
    (hm : rcd.definition.mode = .sync)
    (hq : coreQuietB bus = true)
    (hc : chainRun rcd.definition.name rcd.subscribers
      (Ctx.mk0 rcd.definition p (resolveInitialResult rcd.definition opts)
        (optMeta opts) (decide (0 < rcd.subscribers.length))) = (c2, ids, err))
    (hsf : c2.stoppedForError = true) :
    ∃ bus', triggerFuel (n + 2) bus d p opts =
      ⟨bus', mainTrace rcd.definition.internal ids err,
       if throwOn opts && truthy c2.error then .threw c2.error else .ret c2⟩ := by
  obtain ⟨bus', h⟩ := trigger_sync_run n bus d p opts rcd c2 ids err hl hm hq hc
  refine ⟨bus', ?_⟩
  rw [h]
  simp only [hsf, Bool.and_true]

/-- C2: for a sync trigger whose subscribers all return plain values
(never stopping, throwing, or returning promises), every handler is
invoked exactly once in registration order, and the returned context's
result is the fold of the returned values over the resolved initial
result: a defined return value overwrites the result, an `undefined`
return leaves it unchanged — i.e. the value assigned by the last
subscriber that set one. -/
theorem sync_chain_all_invoked (n : Nat) (bus : Bus) (d : EventDef) (p : JSVal)
    (opts : Option TriggerOptions) (rcd : EventRecord) (vs : List JSVal)
    (hl : lookupRec bus.events d.name = some rcd)
    (hm : rcd.definition.mode = .sync)
    (hq : coreQuietB bus = true)
    (hf : List.Forall₂ ConstRet rcd.subscribers vs)
    (hp : ∀ v ∈ vs, isPromiseLike v = false) :
    ∃ bus' tr c, triggerFuel (n + 2) bus d p opts = ⟨bus', tr, .ret c⟩ ∧
      invokedIds tr = rcd.subscribers.map (·.hid) ∧
      c.result = lastAssigned (resolveInitialResult rcd.definition opts) vs ∧
      c.stopped = false ∧ c.stoppedForError = false := by
  have hc := chainRun_clean rcd.definition.name rcd.subscribers vs
    (Ctx.mk0 rcd.definition p (resolveInitialResult rcd.definition opts)
      (optMeta opts) (decide (0 < rcd.subscribers.length))) hf hp rfl
  obtain ⟨bus', hstep⟩ := trigger_sync_run_ok n bus d p opts rcd _ _ _ hl hm hq hc rfl
  exact ⟨bus', _, _, hstep, invokedIds_mainTrace _ _ _, rfl, rfl, rfl⟩

/-- Witness for C2: two concrete subscribers returning `5` and `undefined`
on the default bus; both run once, in order, and the result is `5`. -/
theorem sync_chain_all_invoked_witness :
    ∃ bus' tr c, triggerFuel 2 (busWith [retFiveHandler, retUndefHandler])
        sampleDef .undefined none = ⟨bus', tr, .ret c⟩ ∧
      invokedIds tr = [1, 2] ∧ c.result = .num 5 ∧
      c.stopped = false ∧ c.stoppedForError = false := by
  have h := sync_chain_all_invoked 0 (busWith [retFiveHandler, retUndefHandler])
    sampleDef .undefined none ⟨sampleDef, [retFiveHandler, retUndefHandler]⟩
    [.num 5, .undefined] (by rfl) rfl (by rfl)
    (List.Forall₂.cons (fun c => rfl) (List.Forall₂.cons (fun c => rfl) List.Forall₂.nil))
    (by decide)
  simpa [lastAssigned, retFiveHandler, retUndefHandler] using h

/-- C9: for a sync trigger with two subscribers where the first calls
`stop('done')` (and returns `undefined`), the second subscriber is never
invoked, and the returned context has `stopped = true` and
`stoppedReason = 'done'`. -/
theorem stop_halts_chain (n : Nat) (bus : Bus) (d : EventDef) (p : JSVal)
    (opts : Option TriggerOptions) (rcd : EventRecord) (h1 h2 : Handler)
    (hl : lookupRec bus.events d.name = some rcd)
    (hm : rcd.definition.mode = .sync)
    (hq : coreQuietB bus = true)
    (hsub : rcd.subscribers = [h1, h2])
    (hstop : ∀ c', h1.run c' = (c'.stop (some "done"), .ret .undefined)) :
    ∃ bus' tr c, triggerFuel (n + 2) bus d p opts = ⟨bus', tr, .ret c⟩ ∧
      invokedIds tr = [h1.hid] ∧
      c.stopped = true ∧ c.stoppedReason = some "done" ∧ c.stoppedForError = false := by
  have hc : chainRun rcd.definition.name rcd.subscribers
      (Ctx.mk0 rcd.definition p (resolveInitialResult rcd.definition opts)
        (optMeta opts) (decide (0 < rcd.subscribers.length))) =
      ((Ctx.mk0 rcd.definition p (resolveInitialResult rcd.definition opts)
        (optMeta opts) (decide (0 < rcd.subscribers.length))).stop (some "done"),
       [h1.hid], false) := by
    rw [hsub]
    exact chainRun_stopper _ h1 (some "done") [h2] _ hstop rfl
  obtain ⟨bus', hstep⟩ := trigger_sync_run_ok n bus d p opts rcd _ _ _ hl hm hq hc rfl
  exact ⟨bus', _, _, hstep, invokedIds_mainTrace _ _ _, rfl, rfl, rfl⟩

/-- Witness for C9: `stopDoneHandler` followed by a value-returning
subscriber on the default bus; only the first is invoked and the context
carries `stopped = true`, `stoppedReason = 'done'`. -/
theorem stop_halts_chain_witness :
    ∃ bus' tr c, triggerFuel 2 (busWith [stopDoneHandler, retFiveHandler])
        sampleDef .undefined none = ⟨bus', tr, .ret c⟩ ∧
      invokedIds tr = [5] ∧
      c.stopped = true ∧ c.stoppedReason = some "done" ∧ c.stoppedForError = false := by
  have h := stop_halts_chain 0 (busWith [stopDoneHandler, retFiveHandler])
    sampleDef .undefined none ⟨sampleDef, [stopDoneHandler, retFiveHandler]⟩
    stopDoneHandler retFiveHandler (by rfl) rfl (by rfl) rfl (fun c => rfl)
  simpa [stopDoneHandler] using h

/-- C1 counterexample: a subscriber that throws the falsy value `false`
under `throwOnError: true`.  The context captures the error and the stop
reason, but the error is NOT re-raised to the caller — the rethrow guard
`throwOnError && stoppedForError && context.error` requires a truthy
error, so the trigger returns the context instead of throwing, refuting
the claim that "the same error e is re-raised". -/
theorem throw_falsy_not_rethrown_cex :
    (triggerFuel 2 (busWith [throwFalseHandler]) sampleDef .undefined
        (some ⟨none, true, none⟩)).outcome =
      .ret ((Ctx.mk0 sampleDef .undefined .undefined none true).stopForError (.bool false)
        (some stoppedByError)) ∧
    (triggerFuel 2 (busWith [throwFalseHandler]) sampleDef .undefined
        (some ⟨none, true, none⟩)).outcome ≠ .threw (.bool false) := by
  decide

/-- C1 amended: for a sync trigger whose chain reaches a subscriber that
throws `e`, the context ends with `stoppedForError = true`, `error = e`,
and stop reason "Subscriber threw an error"; the remaining subscribers are
not invoked; without `throwOnError` nothing is thrown; with
`throwOnError: true` the same `e` is re-raised provided `e` is truthy (a
falsy thrown value stays captured on the context and is not re-raised);
and for a non-internal stored definition the after-trigger lifecycle
notification is part of the trace, which precedes any rethrow. -/
theorem subscriber_throw_capture (n : Nat) (bus : Bus) (d : EventDef) (p : JSVal)
    (opts : Option TriggerOptions) (rcd : EventRecord) (pre : List Handler)
    (vs : List JSVal) (hd : Handler) (post : List Handler) (e : JSVal)
    (hl : lookupRec bus.events d.name = some rcd)
    (hm : rcd.definition.mode = .sync)
    (hq : coreQuietB bus = true)
    (hsub : rcd.subscribers = pre ++ hd :: post)
    (hf : List.Forall₂ ConstRet pre vs)
    (hp : ∀ v ∈ vs, isPromiseLike v = false)
    (hthr : ThrowsAny hd e) :
    ∃ bus' tr c, triggerFuel (n + 2) bus d p opts =
        ⟨bus', tr, if throwOn opts && truthy e then .threw e else .ret c⟩ ∧
      c.stoppedForError = true ∧ c.error = e ∧
      c.stoppedReason = some stoppedByError ∧ c.stopped = true ∧
      invokedIds tr = pre.map (·.hid) ++ [hd.hid] ∧
      (rcd.definition.internal = false →
        TraceEv.lifecycle coreAfterTrigger.name ∈ tr) := by
  have hc : chainRun rcd.definition.name rcd.subscribers
      (Ctx.mk0 rcd.definition p (resolveInitialResult rcd.definition opts)
        (optMeta opts) (decide (0 < rcd.subscribers.length))) =
      ((hd.run { Ctx.mk0 rcd.definition p (resolveInitialResult rcd.definition opts)
          (optMeta opts) (decide (0 < rcd.subscribers.length)) with
        result := lastAssigned (resolveInitialResult rcd.definition opts) vs }).1.stopForError
          e (some stoppedByError),
       pre.map (·.hid) ++ [hd.hid], true) := by
    rw [hsub, chainRun_clean_front rcd.definition.name pre vs (hd :: post) _ hf hp rfl,
      chainRun_throw rcd.definition.name hd e post _ hthr rfl]
    exact rfl
  obtain ⟨bus', hstep⟩ := trigger_sync_run_err n bus d p opts rcd _ _ _ hl hm hq hc rfl
  refine ⟨bus', _, _, hstep, rfl, rfl, rfl, rfl, invokedIds_mainTrace _ _ _, ?_⟩
  intro hintf
  rw [hintf]
  exact after_mem_mainTrace _ _

/-- Witness for C1 (amended): a subscriber throwing the truthy error
object `obj 9` with `throwOnError: true` on the default bus — the error is
re-raised, after the after-trigger notification is on the trace. -/
theorem subscriber_throw_capture_witness :
    ∃ bus' tr c, triggerFuel 2 (busWith [throwObjHandler]) sampleDef .undefined
        (some ⟨none, true, none⟩) =
        ⟨bus', tr, if throwOn (some ⟨none, true, none⟩) && truthy (.obj 9)
          then .threw (.obj 9) else .ret c⟩ ∧
      c.stoppedForError = true ∧ c.error = .obj 9 ∧
      c.stoppedReason = some stoppedByError ∧ c.stopped = true ∧
      invokedIds tr = [8] ∧
      TraceEv.lifecycle coreAfterTrigger.name ∈ tr := by
  have h := subscriber_throw_capture 0 (busWith [throwObjHandler]) sampleDef .undefined
    (some ⟨none, true, none⟩) ⟨sampleDef, [throwObjHandler]⟩ [] [] throwObjHandler []
    (.obj 9) (by rfl) rfl (by rfl) rfl List.Forall₂.nil (by simp) (fun c => rfl)
  obtain ⟨bus', tr, c, hstep, hc1, hc2, hc3, hc4, hc5, hc6⟩ := h
  exact ⟨bus', tr, c, hstep, hc1, hc2, hc3, hc4, by simpa using hc5, hc6 rfl⟩

/-- C8: for a sync trigger whose chain reaches a subscriber returning a
promise-like value, the chain halts at that subscriber and the context
carries a captured `TypeError` (an error kind structurally distinguishable
from arbitrary thrown values) with `stoppedForError = true`; nothing is
thrown to the caller unless `throwOnError` is set, in which case the
`TypeError` (always truthy) is re-raised. -/
theorem promise_on_sync_captured (n : Nat) (bus : Bus) (d : EventDef) (p : JSVal)
    (opts : Option TriggerOptions) (rcd : EventRecord) (pre : List Handler)
    (vs : List JSVal) (hd : Handler) (post : List Handler) (v : JSVal)
    (hl : lookupRec bus.events d.name = some rcd)
    (hm : rcd.definition.mode = .sync)
    (hq : coreQuietB bus = true)
    (hsub : rcd.subscribers = pre ++ hd :: post)
    (hf : List.Forall₂ ConstRet pre vs)
    (hp : ∀ w ∈ vs, isPromiseLike w = false)
    (hcr : ConstRet hd v) (hpl : isPromiseLike v = true) :
    ∃ bus' tr c, triggerFuel (n + 2) bus d p opts =
        ⟨bus', tr, if throwOn opts
          then .threw (.typeError (typeErrMsg rcd.definition.name)) else .ret c⟩ ∧
      c.stoppedForError = true ∧
      c.error = .typeError (typeErrMsg rcd.definition.name) ∧
      c.stoppedReason = some stoppedByError ∧ c.stopped = true ∧
      invokedIds tr = pre.map (·.hid) ++ [hd.hid] := by
  have hc : chainRun rcd.definition.name rcd.subscribers
      (Ctx.mk0 rcd.definition p (resolveInitialResult rcd.definition opts)
        (optMeta opts) (decide (0 < rcd.subscribers.length))) =
      (({ Ctx.mk0 rcd.definition p (resolveInitialResult rcd.definition opts)
          (optMeta opts) (decide (0 < rcd.subscribers.length)) with
        result := lastAssigned (resolveInitialResult rcd.definition opts) vs }).stopForError
          (.typeError (typeErrMsg rcd.definition.name)) (some stoppedByError),
       pre.map (·.hid) ++ [hd.hid], true) := by
    rw [hsub, chainRun_clean_front rcd.definition.name pre vs (hd :: post) _ hf hp rfl,
      chainRun_promise rcd.definition.name hd v post _ hcr hpl rfl]
    exact rfl
  obtain ⟨bus', hstep⟩ := trigger_sync_run_err n bus d p opts rcd _ _ _ hl hm hq hc rfl
  simp only [Ctx.stopForError, Ctx.stop, truthy, Bool.and_true] at hstep
  exact ⟨bus', _, _, hstep, rfl, rfl, rfl, rfl, invokedIds_mainTrace _ _ _⟩

/-- Witness for C8: a subscriber returning a promise on the sync
`sampleDef` with no `throwOnError`; the chain halts and the context holds
the captured `TypeError`. -/
theorem promise_on_sync_captured_witness :
    ∃ bus' tr c, triggerFuel 2 (busWith [retPromiseHandler]) sampleDef .undefined none =
        ⟨bus', tr, if throwOn none
          then .threw (.typeError (typeErrMsg "x")) else .ret c⟩ ∧
      c.stoppedForError = true ∧ c.error = .typeError (typeErrMsg "x") ∧
      c.stoppedReason = some stoppedByError ∧ c.stopped = true ∧
      invokedIds tr = [3] := by
  have h := promise_on_sync_captured 0 (busWith [retPromiseHandler]) sampleDef .undefined
    none ⟨sampleDef, [retPromiseHandler]⟩ [] [] retPromiseHandler [] (.promise 4)
    (by rfl) rfl (by rfl) rfl List.Forall₂.nil (by simp) (fun c => rfl) rfl
  simpa using h

/-- C7 counterexample: an internal-flagged descriptor whose NAME is
registered with a non-internal record.  `trigger` computes
`skipLifecycle` from the STORED record, so triggering the internal
descriptor does emit the before-trigger lifecycle notification, refuting
"triggering an internal descriptor never emits lifecycle notifications". -/
theorem internal_def_triggers_lifecycle_cex :
    sampleDefInternal.internal = true ∧
    getEvent (busWith []) "x" = some sampleDef ∧ sampleDef.internal = false ∧
    TraceEv.lifecycle coreBeforeTrigger.name ∈
      (triggerFuel 2 (busWith []) sampleDefInternal .undefined none).trace := by
  decide

/-- C7 amended: when the record `trigger` resolves for the descriptor is
internal (the stored record is internal, or the name is unseen and the
descriptor itself is internal), the trigger emits no lifecycle
notification at any depth — in particular a throwing subscriber causes no
subscriber-error notification — and the run is independent of the fuel
bound: no nested lifecycle triggering happens at all, so recursion is
bounded. -/
theorem internal_no_lifecycle (bus : Bus) (d : EventDef) (hint : storedInternal bus d)
    (n : Nat) (p : JSVal) (opts : Option TriggerOptions) :
    lifecycleNames (triggerFuel (n + 1) bus d p opts).trace = [] ∧
    triggerFuel (n + 1) bus d p opts = triggerFuel 1 bus d p opts := by
  rw [triggerFuel_succ, show (1 : Nat) = 0 + 1 from rfl, triggerFuel_succ]
  unfold storedInternal at hint
  rcases hl : lookupRec bus.events d.name with _ | r
  · rw [hl] at hint
    rw [triggerStep, triggerStep, ensureRecord_absent bus d hl]
    dsimp only
    simp only [hint, if_true]
    cases hdm : d.mode with
    | async => exact ⟨rfl, rfl⟩
    | sync =>
      rw [runSyncGo_internal (fun b cd pl => triggerFuel n b cd pl (some internalOpts))
          ⟨d, []⟩ hint,
        runSyncGo_internal (fun b cd pl => triggerFuel 0 b cd pl (some internalOpts))
          ⟨d, []⟩ hint]
      refine ⟨?_, rfl⟩
      cases hcond : throwOn opts &&
          (chainRun d.name [] (Ctx.mk0 d p (resolveInitialResult d opts) (optMeta opts)
            (decide (0 < ([] : List Handler).length)))).1.stoppedForError &&
          truthy (chainRun d.name [] (Ctx.mk0 d p (resolveInitialResult d opts)
            (optMeta opts) (decide (0 < ([] : List Handler).length)))).1.error <;>
        simp [hcond, lifecycleNames_map_invoked]
  · rw [hl] at hint
    rw [triggerStep, triggerStep, ensureRecord_present bus d r hl]
    dsimp only
    simp only [hint, if_true]
    cases hdm : r.definition.mode with
    | async => exact ⟨rfl, rfl⟩
    | sync =>
      rw [runSyncGo_internal (fun b cd pl => triggerFuel n b cd pl (some internalOpts))
          r hint,
        runSyncGo_internal (fun b cd pl => triggerFuel 0 b cd pl (some internalOpts))
          r hint]
      refine ⟨?_, rfl⟩
      cases hcond : throwOn opts &&
          (chainRun r.definition.name r.subscribers
            (Ctx.mk0 r.definition p (resolveInitialResult r.definition opts) (optMeta opts)
              (decide (0 < r.subscribers.length)))).1.stoppedForError &&
          truthy (chainRun r.definition.name r.subscribers
            (Ctx.mk0 r.definition p (resolveInitialResult r.definition opts) (optMeta opts)
              (decide (0 < r.subscribers.length)))).1.error <;>
        simp [hcond, lifecycleNames_map_invoked]

/-- Witness for C7 (amended): triggering the stored internal core
`beforeTrigger` descriptor on the default bus emits no lifecycle
notification and is fuel-independent. -/
theorem internal_no_lifecycle_witness :
    lifecycleNames (triggerFuel 3 defaultBus coreBeforeTrigger .undefined none).trace = [] ∧
    triggerFuel 3 defaultBus coreBeforeTrigger .undefined none =
      triggerFuel 1 defaultBus coreBeforeTrigger .undefined none :=
  internal_no_lifecycle defaultBus coreBeforeTrigger (by rfl) 2 .undefined none

/-- C10 counterexample: on a bus built with `includeCoreEvents: false`,
triggering an ALREADY REGISTERED non-internal descriptor changes the
registry — the missing lifecycle descriptors get auto-registered by the
nested `triggerInternal` calls — refuting "for a registered name, trigger
leaves the registry unchanged". -/
theorem trigger_mutates_registry_cex :
    hasEvent busNoCore "x" = true ∧
    (triggerFuel 2 busNoCore sampleDef .undefined none).bus.events.map Prod.fst ≠
      busNoCore.events.map Prod.fst ∧
    hasEvent (triggerFuel 2 busNoCore sampleDef .undefined none).bus
      coreBeforeTrigger.name = true := by
  decide

/-- C10 amended: (1) triggering a descriptor whose name is unseen
permanently registers it — afterwards `hasEvent` is true and `getEvent`
returns that descriptor — even with zero subscribers; (2) for a descriptor
whose name is already registered, trigger leaves the registry unchanged
PROVIDED the three lifecycle core names are registered too (as on a
default-constructed bus); the counterexample shows part (2) fails without
that proviso. -/
theorem trigger_registry_effect :
    (∀ (n : Nat) (bus : Bus) (d : EventDef) (p : JSVal) (opts : Option TriggerOptions),
      lookupRec bus.events d.name = none →
      hasEvent (triggerFuel (n + 1) bus d p opts).bus d.name = true ∧
      getEvent (triggerFuel (n + 1) bus d p opts).bus d.name = some d) ∧
    (∀ (f : Nat) (bus : Bus) (d : EventDef) (p : JSVal) (opts : Option TriggerOptions)
      (rcd : EventRecord),
      lookupRec bus.events d.name = some rcd → coreRegistered bus = true →
      (triggerFuel f bus d p opts).bus = bus) := by
  constructor
  · intro n bus d p opts habs
    rw [triggerFuel_succ]
    have hl1 : lookupRec (ensureRecord bus d).1.events d.name = some ⟨d, []⟩ := by
      rw [ensureRecord_absent bus d habs]
      exact lookup_setRec_self _ _ _
    have hfinal := busLe_triggerStep_from
      (fun b cd pl => triggerFuel n b cd pl (some internalOpts))
      (fun b cd pl => busLe_triggerFuel n b cd pl (some internalOpts))
      bus d p opts d.name ⟨d, []⟩ hl1
    exact ⟨by simp [hasEvent, hfinal], by simp [getEvent, hfinal]⟩
  · intro f bus d p opts rcd hl hcore
    exact triggerFuel_fixed f bus d p opts hcore (by simp [hl])

/-- Witness for C10 (amended): triggering the unregistered `sampleDef` on
the default bus registers it; triggering it again on the bus that stores
it (with all core events registered) leaves the registry unchanged. -/
theorem trigger_registry_effect_witness :
    hasEvent (triggerFuel 1 defaultBus sampleDef .undefined none).bus "x" = true ∧
    getEvent (triggerFuel 1 defaultBus sampleDef .undefined none).bus "x" = some sampleDef ∧
    (triggerFuel 5 (busWith []) sampleDef .undefined none).bus = busWith [] := by
  refine ⟨(trigger_registry_effect.1 0 defaultBus sampleDef .undefined none (by rfl)).1,
    (trigger_registry_effect.1 0 defaultBus sampleDef .undefined none (by rfl)).2,
    trigger_registry_effect.2 5 (busWith []) sampleDef .undefined none ⟨sampleDef, []⟩
      (by rfl) (by rfl)⟩
